import Mathlib

set_option maxHeartbeats 1000000

/-!
Verification development for the SoraWatermarkCleaner server.

The definitions below are a shallow embedding of
`sorawm/server/worker.py` (the task worker and its job-store updates) and
`sorawm/iopaint/file_manager/storage_backends.py` (the local-filesystem
and Google-Cloud-Storage backends).  The SQLAlchemy job table is modelled
as an association list keyed by the task id; each `async with get_session()`
block of the worker becomes one pure update of that list.
-/

namespace Sora

/-- Lifecycle states of a task (the `Status` enum of `sorawm.server.schemas`,
as read and written by the worker). -/
inductive Status where
  | uploading
  | processing
  | finished
  | error
deriving DecidableEq, Repr

/-- Row of the `Task` table (`sorawm.server.models.Task`): exactly the columns
the worker reads or writes.  `output_path` and `download_url` are NULLable. -/
structure Task where
  video_path : String
  status : Status
  percentage : Int
  output_path : Option String
  download_url : Option String
deriving DecidableEq, Repr

/-- Point lookup in an association list by key (the `select(...).where(Task.id == id)`
queries: the table is keyed by the primary key `id`). -/
def lookupS {κ α : Type} [DecidableEq κ] : List (κ × α) → κ → Option α
  | [], _ => none
  | (k, v) :: rest, key => if k = key then some v else lookupS rest key

/-- Point update by key: rows whose key matches are replaced by `f` of the row;
a table with no matching row is returned unchanged. -/
def updateS {κ α : Type} [DecidableEq κ] : List (κ × α) → κ → (α → α) → List (κ × α)
  | [], _, _ => []
  | (k, v) :: rest, key, f =>
      if k = key then (k, f v) :: updateS rest key f else (k, v) :: updateS rest key f

/-- Upsert by key: replace the value at the key if present, append otherwise. -/
def insertS {κ α : Type} [DecidableEq κ] : List (κ × α) → κ → α → List (κ × α)
  | [], key, v => [(key, v)]
  | (k, w) :: rest, key, v =>
      if k = key then (key, v) :: rest else (k, w) :: insertS rest key v

/-- Removal by key. -/
def eraseS {κ α : Type} [DecidableEq κ] : List (κ × α) → κ → List (κ × α)
  | [], _ => []
  | (k, v) :: rest, key =>
      if k = key then eraseS rest key else (k, v) :: eraseS rest key

/-- The job store: the `Task` table, keyed by the task id. -/
abbrev Store : Type := List (String × Task)

/-- Lookup of a task by id in the store. -/
def Store.find? (st : Store) (id : String) : Option Task := lookupS st id

/-- Update of the task with the given id (no-op when the id is absent). -/
def Store.update (st : Store) (id : String) (f : Task → Task) : Store := updateS st id f

/-- Worker operation `create_task` (worker.py lines 51-62): insert a fresh row
with empty video path, status UPLOADING and percentage 0. -/
def createTask (st : Store) (id : String) : Store :=
  (id, { video_path := "", status := .uploading, percentage := 0,
         output_path := none, download_url := none }) :: st

/-- Worker operation `queue_task` (worker.py lines 79-84): set the video path,
status PROCESSING and percentage 0 on the existing row. -/
def queueTask (st : Store) (id : String) (path : String) : Store :=
  st.update id (fun t => { t with video_path := path, status := .processing, percentage := 0 })

/-- Worker operation `mark_task_error` (worker.py lines 89-96): when the row
exists, set status ERROR and percentage 0; an absent id is left alone
(`scalar_one_or_none` followed by `if task:`). -/
def markTaskError (st : Store) (id : String) : Store :=
  st.update id (fun t => { t with status := .error, percentage := 0 })

/-- First database block of a `run` iteration (worker.py lines 125-131):
status PROCESSING, percentage 10. -/
def beginProcessing (st : Store) (id : String) : Store :=
  st.update id (fun t => { t with status := .processing, percentage := 10 })

/-- Body of `_update_progress` (worker.py lines 207-212): overwrite the
percentage of the row when it exists; an absent id is left alone. -/
def applyProgress (st : Store) (id : String) (p : Int) : Store :=
  st.update id (fun t => { t with percentage := p })

/-- Success block of a `run` iteration (worker.py lines 164-172): status
FINISHED, percentage 100, output path and download url set. -/
def finishTask (st : Store) (id : String) (out : String) : Store :=
  st.update id (fun t =>
    { t with status := .finished, percentage := 100,
             output_path := some out, download_url := some ("/download/" ++ id) })

/-- Except block of a `run` iteration (worker.py lines 194-200): status ERROR,
percentage 0 on the row of the failed task. -/
def failTask (st : Store) (id : String) : Store :=
  st.update id (fun t => { t with status := .error, percentage := 0 })

/-- Worker operation `get_output_path` (worker.py lines 239-245): NULL for an
unknown id or a row without an output path. -/
def getOutputPath (st : Store) (id : String) : Option String :=
  match st.find? id with
  | none => none
  | some task => task.output_path

/-- Result shape of `get_task_status` (`WMRemoveResults` of sorawm.server.schemas). -/
structure WMRemoveResults where
  percentage : Int
  status : Status
  download_url : Option String
deriving DecidableEq, Repr

/-- Worker operation `get_download_url` (worker.py lines 247-273).  The signed
url produced by the external GCS client is abstracted as the function
`signedUrl`; it returns `none` when signing raises (the except branch). -/
def getDownloadUrl (st : Store) (id : String) (useGcs : Bool)
    (signedUrl : String → Option String) : Option String :=
  match st.find? id with
  | none => none
  | some task =>
    match task.output_path with
    | none => none
    | some out => if useGcs then signedUrl out else some ("/download/" ++ id)

/-- Worker operation `get_task_status` (worker.py lines 216-237): `None` for an
unknown id; otherwise the percentage, status, and a download url computed only
for a FINISHED row with an output path. -/
def getTaskStatus (st : Store) (id : String) (useGcs : Bool)
    (signedUrl : String → Option String) : Option WMRemoveResults :=
  match st.find? id with
  | none => none
  | some task =>
    let durl :=
      if task.status = .finished ∧ task.output_path.isSome then
        (if useGcs then getDownloadUrl st id useGcs signedUrl else task.download_url)
      else none
    some { percentage := task.percentage, status := task.status, download_url := durl }

/-! Sample task rows used in concrete instances. -/

/-- Sample row as `create_task` writes it. -/
def taskU : Task :=
  { video_path := "", status := .uploading, percentage := 0,
    output_path := none, download_url := none }

/-- Sample PROCESSING row with a given percentage. -/
def taskP (p : Int) : Task := { taskU with status := .processing, percentage := p }

/-- Sample FINISHED row. -/
def taskF : Task :=
  { taskU with status := .finished, percentage := 100,
               output_path := some "out.mp4", download_url := some "/download/j" }

/-!
Model of the storage backends
(`sorawm/iopaint/file_manager/storage_backends.py`).

The GCS bucket is modelled as an association list from blob name to the
stored bytes; blob contents are opaque byte lists.
-/

/-- Opaque byte-string contents of a stored object. -/
abbrev Bytes := List Nat

/-- State of the GCS bucket: blob name to stored data. -/
abbrev GCSBucket := List (String × Bytes)

/-- Python `filepath.lstrip("/")` as used by every GCSStorageBackend method:
drop every leading slash character. -/
def lstripSlash (s : String) : String :=
  String.mk (s.data.dropWhile (fun c => c == '/'))

/-- Failure raised by `GCSStorageBackend.read` on a missing blob. -/
inductive GCSErr where
  | fileNotFound (blobName : String)
deriving DecidableEq, Repr

/-- GCSStorageBackend.read (lines 86-95): strip leading slashes, fail with
FileNotFoundError when the blob does not exist, else return its bytes. -/
def gcsRead (g : GCSBucket) (filepath : String) : Except GCSErr Bytes :=
  let blob_name := lstripSlash filepath
  match lookupS g blob_name with
  | none => .error (.fileNotFound blob_name)
  | some b => .ok b

/-- GCSStorageBackend.exists (lines 97-101). -/
def gcsExists (g : GCSBucket) (filepath : String) : Bool :=
  (lookupS g (lstripSlash filepath)).isSome

/-- GCSStorageBackend.save (lines 103-112): upload overwrites the blob at the
stripped name. -/
def gcsSave (g : GCSBucket) (filepath : String) (data : Bytes) : GCSBucket :=
  insertS g (lstripSlash filepath) data

/-- Blob name that GCSStorageBackend.get_signed_url (lines 114-124) signs; the
URL itself is produced by the external GCS client from this name. -/
def gcsSignedUrlBlobName (filepath : String) : String := lstripSlash filepath

/-- GCSStorageBackend.delete (lines 126-131): delete only when the blob exists. -/
def gcsDelete (g : GCSBucket) (filepath : String) : GCSBucket :=
  if (lookupS g (lstripSlash filepath)).isSome then eraseS g (lstripSlash filepath) else g

/-- Failure raised by Python attribute dispatch on a missing method. -/
inductive PyAttrErr where
  | attributeError (name : String)
deriving DecidableEq, Repr

/-- Delete on the local backend.  `FilesystemStorageBackend`
(storage_backends.py lines 26-48) defines only `read`, `exists` and `save`,
and `BaseStorageBackend` (lines 9-23) declares no `delete` either, so Python
attribute dispatch raises `AttributeError` whenever `delete` is invoked on the
filesystem backend, whatever the reference. -/
def fsBackendDelete (_filepath : String) : Except PyAttrErr Unit :=
  .error (.attributeError "delete")

/-!
Model of the local filesystem as used by `FilesystemStorageBackend.save`
(storage_backends.py lines 34-48).  A path is its list of segments; the empty
list plays the role of the empty string that `os.path.dirname` returns for a
bare filename.  The filesystem is a flat map from path to node; `wfFS` states
the shape every real directory tree has.
-/

/-- Path as a list of segments. -/
abbrev FPath := List String

/-- Node of the local filesystem: a regular file with contents, or a directory. -/
inductive FNode where
  | file (data : Bytes)
  | dir
deriving DecidableEq, Repr

/-- Local filesystem state. -/
abbrev FS := List (FPath × FNode)

/-- Model of `os.path.exists`; Python returns False for the empty string. -/
def pathExists (fs : FS) (p : FPath) : Bool :=
  if p.isEmpty then false else (lookupS fs p).isSome

/-- Model of `os.path.isdir`; False for the empty path. -/
def isdir (fs : FS) (p : FPath) : Bool :=
  if p.isEmpty then false
  else
    match lookupS fs p with
    | some .dir => true
    | _ => false

/-- Errors raised by the filesystem calls.  In Python 3 each of these is a
subclass of OSError, and IOError is an alias of OSError, so every one of them
is an IOError. -/
inductive OsErr where
  | enoent
  | eexist
  | enotdir
  | eisdir
  | ioErrorNotDir (p : FPath)
deriving DecidableEq, Repr

/-- Model of `os.mkdir`: ENOENT on the empty path, ENOENT or ENOTDIR when the
immediate parent of a deeper path is absent or a regular file (the current
directory counts as an existing directory), EEXIST when the target already
exists, otherwise the new directory is recorded. -/
def mkdir (fs : FS) (p : FPath) : Except OsErr FS :=
  if p.isEmpty then .error .enoent
  else
    match (if p.dropLast.isEmpty then some FNode.dir else lookupS fs p.dropLast) with
    | none => .error .enoent
    | some (.file _) => .error .enotdir
    | some .dir =>
      match lookupS fs p with
      | some _ => .error .eexist
      | none => .ok (insertS fs p .dir)

/-- Model of `os.makedirs` with exist_ok False, following the standard-library
implementation: when the head is nonempty and absent, recursively create it
(a FileExistsError from the recursive call is suppressed), then mkdir the full
path. -/
def makedirs (fs : FS) (p : FPath) : Except OsErr FS :=
  if h : p.dropLast ≠ [] ∧ pathExists fs p.dropLast = false then
    match makedirs fs p.dropLast with
    | .ok fs2 => mkdir fs2 p
    | .error .eexist => mkdir fs p
    | .error e => .error e
  else mkdir fs p
termination_by p.length
decreasing_by
  simp_wf
  cases p with
  | nil => exact absurd rfl h.1
  | cons a l => simp

/-- The exists/makedirs preamble of `FilesystemStorageBackend.save` (lines
35-42), with the `except OSError` clause that suppresses errno EEXIST and
re-raises everything else. -/
def savePrep (fs : FS) (directory : FPath) : Except OsErr FS :=
  if pathExists fs directory = false then
    match makedirs fs directory with
    | .ok fs2 => .ok fs2
    | .error .eexist => .ok fs
    | .error e => .error e
  else .ok fs

/-- Whole `FilesystemStorageBackend.save` (lines 34-48): dirname, the makedirs
preamble, the explicit `raise IOError` when the dirname is not a directory,
then `open(filepath, "wb")`, which truncates an existing file, creates a
missing one, and raises IsADirectoryError when the target is a directory. -/
def fsSave (fs : FS) (filepath : FPath) (data : Bytes) : Except OsErr FS :=
  match savePrep fs filepath.dropLast with
  | .error e => .error e
  | .ok fs2 =>
    if isdir fs2 filepath.dropLast = false then
      .error (.ioErrorNotDir filepath.dropLast)
    else
      match lookupS fs2 filepath with
      | some .dir => .error .eisdir
      | _ => .ok (insertS fs2 filepath (.file data))

/-- Every nonempty prefix of the path is absent or a directory: no path
segment is occupied by a regular file. -/
def prefixesClear (fs : FS) (p : FPath) : Bool :=
  p.inits.all (fun q =>
    match lookupS fs q with
    | some (.file _) => false
    | _ => true)

/-- Well-formed filesystem: every nonempty proper prefix of a present path is
present as a directory.  Every real directory tree has this shape. -/
def wfFS (fs : FS) : Bool :=
  fs.all (fun kv => kv.1.inits.all (fun q =>
    if q.isEmpty ∨ q = kv.1 then true
    else decide (lookupS fs q = some FNode.dir)))

/-!
Model of one iteration of the worker loop `WMRemoveTaskWorker.run`
(worker.py lines 98-203).  External effects (GCS transfers, the processing
call, file unlinks, database availability) are represented by boolean
outcomes supplied in a `StepOutcomes` environment; the progress reports the
processing operation delivers through `progress_callback` are a list of
values, each paired with the success of its own database write.
-/

/-- Outcome of one iteration of the worker loop: either control returns to
`await self.queue.get()` for the next task, or an exception escaped the
iteration and the `while True` loop is gone. -/
inductive RunResult where
  | next
  | halted
deriving DecidableEq, Repr

/-- External outcomes of the steps of one `run` iteration. -/
structure StepOutcomes where
  useGcs : Bool
  downloadOk : Bool
  reports : List (Int × Bool)
  processOk : Bool
  uploadOk : Bool
  tempCleanupOk : Bool
  errCleanupInputOk : Bool
  errCleanupOutputOk : Bool
deriving DecidableEq, Repr

/-- Fallible body of `_update_progress` (worker.py lines 206-212): the
database write either applies the overwrite or raises. -/
def updateProgressBody (st : Store) (id : String) (p : Int) (dbOk : Bool) :
    Except Unit Store :=
  if dbOk then .ok (applyProgress st id p) else .error ()

/-- Whole `_update_progress` call (worker.py lines 205-214): the except clause
logs and swallows any failure of the body, leaving the store as it was. -/
def updateProgressCaught (st : Store) (id : String) (p : Int) (dbOk : Bool) : Store :=
  match updateProgressBody st id p dbOk with
  | .ok st2 => st2
  | .error _ => st

/-- Progress reports delivered in order during the processing call, each routed
through `progress_callback` into `_update_progress`. -/
def applyReports (st : Store) (id : String) (rs : List (Int × Bool)) : Store :=
  rs.foldl (fun s pr => updateProgressCaught s id pr.1 pr.2) st

/-- Try/except-wrapped unlink of a temp file in the except branch (worker.py
lines 183-192): a failing unlink is logged and swallowed. -/
def cleanupAttempt (ok : Bool) : Except Unit Unit :=
  if ok then .ok () else .error ()

/-- Except branch of a `run` iteration (worker.py lines 178-200): both cleanup
attempts are individually caught, so their results are discarded; then the ERROR
update runs with `scalar_one`, which raises when the row is absent — and that
exception, raised inside the except handler, escapes the `while True` loop. -/
def exceptPath (st : Store) (id : String) (cleanInOk cleanOutOk : Bool) :
    Store × RunResult :=
  match cleanupAttempt cleanInOk, cleanupAttempt cleanOutOk with
  | _, _ =>
    match st.find? id with
    | some _ => (failTask st id, .next)
    | none => (st, .halted)

/-- One iteration of `WMRemoveTaskWorker.run` (worker.py lines 100-203) on a
dequeued task id: GCS input download, the PROCESSING/10 update, the processing
call with its progress reports, GCS output upload, the unguarded temp-file
cleanup of the success path, and the FINISHED finalization; any failing step
jumps to the except branch. -/
def runOnce (st : Store) (id : String) (out : String) (env : StepOutcomes) :
    Store × RunResult :=
  if env.useGcs ∧ env.downloadOk = false then
    exceptPath st id env.errCleanupInputOk env.errCleanupOutputOk
  else
    match st.find? id with
    | none => exceptPath st id env.errCleanupInputOk env.errCleanupOutputOk
    | some _ =>
      let st1 := beginProcessing st id
      let st2 := applyReports st1 id env.reports
      if env.processOk = false then
        exceptPath st2 id env.errCleanupInputOk env.errCleanupOutputOk
      else if env.useGcs ∧ env.uploadOk = false then
        exceptPath st2 id env.errCleanupInputOk env.errCleanupOutputOk
      else if env.useGcs ∧ env.tempCleanupOk = false then
        exceptPath st2 id env.errCleanupInputOk env.errCleanupOutputOk
      else
        match st2.find? id with
        | none => exceptPath st2 id env.errCleanupInputOk env.errCleanupOutputOk
        | some _ => (finishTask st2 id out, .next)

/-!
Transition system of the whole server: the job table, the FIFO queue of
`WMRemoveTaskWorker.queue`, and the id of the task the single sequential
worker has in flight.  Each transition mirrors one code path of worker.py;
`mark_task_error` is a public coroutine of the worker with no status guard,
so it may fire at any time.
-/

/-- Whole-system state. -/
structure SysState where
  store : Store
  queue : List String
  active : Option String

/-- One observable transition of the system.  `createT` is `create_task` with a
fresh uuid; `queueT` is `queue_task` (row required by `scalar_one`); `beginT`
is the worker dequeuing a task and reaching the PROCESSING/10 update, while
`beginFailT` is a dequeue whose staging fails before that update (except
branch); `progressT` is an applied `_update_progress` for the in-flight task;
`finishT` and `failT` end the iteration; `markErrorT` is `mark_task_error`. -/
inductive Step : SysState → SysState → Prop where
  | createT {s s' : SysState} (id : String)
      (hfresh : s.store.find? id = none)
      (heq : s' = ⟨createTask s.store id, s.queue, s.active⟩) : Step s s'
  | queueT {s s' : SysState} (id path : String) (t : Task)
      (hex : s.store.find? id = some t)
      (heq : s' = ⟨queueTask s.store id path, s.queue ++ [id], s.active⟩) : Step s s'
  | beginT {s s' : SysState} (id : String) (rest : List String) (t : Task)
      (hq : s.queue = id :: rest) (ha : s.active = none)
      (hex : s.store.find? id = some t)
      (heq : s' = ⟨beginProcessing s.store id, rest, some id⟩) : Step s s'
  | beginFailT {s s' : SysState} (id : String) (rest : List String) (t : Task)
      (hq : s.queue = id :: rest) (ha : s.active = none)
      (hex : s.store.find? id = some t)
      (heq : s' = ⟨failTask s.store id, rest, none⟩) : Step s s'
  | progressT {s s' : SysState} (id : String) (p : Int)
      (ha : s.active = some id)
      (heq : s' = ⟨applyProgress s.store id p, s.queue, s.active⟩) : Step s s'
  | finishT {s s' : SysState} (id out : String) (t : Task)
      (ha : s.active = some id) (hex : s.store.find? id = some t)
      (heq : s' = ⟨finishTask s.store id out, s.queue, none⟩) : Step s s'
  | failT {s s' : SysState} (id : String) (t : Task)
      (ha : s.active = some id) (hex : s.store.find? id = some t)
      (heq : s' = ⟨failTask s.store id, s.queue, none⟩) : Step s s'
  | markErrorT {s s' : SysState} (id : String)
      (heq : s' = ⟨markTaskError s.store id, s.queue, s.active⟩) : Step s s'

/-- Initial state: empty table, empty queue, idle worker. -/
def initState : SysState := ⟨[], [], none⟩

/-- Reachability from the initial state through system transitions. -/
def Reachable (s : SysState) : Prop := Relation.ReflTransGen Step initState s

/-- Task-level invariant: a FINISHED row carries percentage 100 and an output
path; an UPLOADING row carries percentage 0 and no output path. -/
abbrev TaskOk (t : Task) : Prop :=
  (t.status = .finished → t.percentage = 100 ∧ t.output_path ≠ none) ∧
  (t.status = .uploading → t.percentage = 0 ∧ t.output_path = none)

/-- Store-level invariant: every row satisfies `TaskOk`. -/
abbrev StoreOk (st : Store) : Prop := ∀ id t, st.find? id = some t → TaskOk t

/-- Inductive system invariant: `StoreOk` plus the fact that the in-flight task
always exists and is PROCESSING or (after a concurrent mark_task_error) ERROR. -/
abbrev SysInv (s : SysState) : Prop :=
  StoreOk s.store ∧
  ∀ id, s.active = some id → ∃ t, s.store.find? id = some t ∧
    (t.status = .processing ∨ t.status = .error)

/-! Concrete trace used in counterexamples: create j, queue j, the worker picks
j up, the processing operation reports 100, the worker finalizes, and an
external mark_task_error hits the finished job. -/

/-- State after `create_task` of j. -/
def cexS1 : SysState := ⟨createTask [] "j", [], none⟩

/-- State after `queue_task` of j. -/
def cexS2 : SysState := ⟨queueTask cexS1.store "j" "v.mp4", ["j"], none⟩

/-- State after the worker dequeues j and runs the PROCESSING/10 update. -/
def cexS3 : SysState := ⟨beginProcessing cexS2.store "j", [], some "j"⟩

/-- State after an in-run progress report of 100 for j. -/
def cexS4 : SysState := ⟨applyProgress cexS3.store "j" 100, [], some "j"⟩

/-- State after the FINISHED finalization of j. -/
def cexS5 : SysState := ⟨finishTask cexS4.store "j" "o.mp4", [], none⟩

/-- State after `mark_task_error` hits the finished job j. -/
def cexS6 : SysState := ⟨markTaskError cexS5.store "j", [], none⟩

/-- Row of j in `cexS4`: PROCESSING with percentage 100. -/
def cexP : Task :=
  { video_path := "v.mp4", status := .processing, percentage := 100,
    output_path := none, download_url := none }

/-- Row of j in `cexS5`: FINISHED. -/
def cexF : Task :=
  { video_path := "v.mp4", status := .finished, percentage := 100,
    output_path := some "o.mp4", download_url := some "/download/j" }

/-- Row of j in `cexS6`: ERROR with the output path still set. -/
def cexE : Task := { cexF with status := .error, percentage := 0 }

/-! Basic lemmas about the association-list primitives. -/

theorem lookupS_updateS {κ α : Type} [DecidableEq κ] (l : List (κ × α)) (k k' : κ) (f : α → α) :
    lookupS (updateS l k f) k' =
      if k = k' then (lookupS l k').map f else lookupS l k' := by
  induction l with
  | nil => by_cases h : k = k' <;> simp [lookupS, updateS, h]
  | cons hd tl ih =>
    obtain ⟨k0, v0⟩ := hd
    by_cases h0 : k0 = k
    · subst h0
      by_cases h1 : k0 = k'
      · subst h1
        simp [lookupS, updateS]
      · simp [lookupS, updateS, h1, ih]
    · by_cases h1 : k0 = k'
      · subst h1
        have hk : ¬ k = k0 := fun e => h0 e.symm
        simp [lookupS, updateS, h0, hk]
      · simp [lookupS, updateS, h0, h1, ih]

theorem lookupS_updateS_self {κ α : Type} [DecidableEq κ] (l : List (κ × α)) (k : κ) (f : α → α) :
    lookupS (updateS l k f) k = (lookupS l k).map f := by
  simp [lookupS_updateS]

theorem lookupS_updateS_ne {κ α : Type} [DecidableEq κ] (l : List (κ × α)) (k k' : κ)
    (f : α → α) (h : k ≠ k') :
    lookupS (updateS l k f) k' = lookupS l k' := by
  simp [lookupS_updateS, h]

theorem updateS_absent {κ α : Type} [DecidableEq κ] (l : List (κ × α)) (k : κ) (f : α → α)
    (h : lookupS l k = none) : updateS l k f = l := by
  induction l with
  | nil => rfl
  | cons hd tl ih =>
    obtain ⟨k0, v0⟩ := hd
    by_cases h0 : k0 = k
    · subst h0
      simp [lookupS] at h
    · simp only [lookupS, if_neg h0] at h
      simp [updateS, h0, ih h]

theorem lookupS_insertS_self {κ α : Type} [DecidableEq κ] (l : List (κ × α)) (k : κ) (v : α) :
    lookupS (insertS l k v) k = some v := by
  induction l with
  | nil => simp [insertS, lookupS]
  | cons hd tl ih =>
    obtain ⟨k0, v0⟩ := hd
    by_cases h0 : k0 = k
    · subst h0
      simp [insertS, lookupS]
    · simp [insertS, h0, lookupS, ih]

theorem lookupS_insertS_ne {κ α : Type} [DecidableEq κ] (l : List (κ × α)) (k k' : κ) (v : α)
    (h : k ≠ k') : lookupS (insertS l k v) k' = lookupS l k' := by
  induction l with
  | nil => simp [insertS, lookupS, h]
  | cons hd tl ih =>
    obtain ⟨k0, v0⟩ := hd
    by_cases h0 : k0 = k
    · subst h0
      simp [insertS, lookupS, h]
    · simp [insertS, h0, lookupS, ih]

theorem find?_update_self (st : Store) (id : String) (f : Task → Task) :
    (st.update id f).find? id = (st.find? id).map f :=
  lookupS_updateS_self st id f

theorem find?_update_ne (st : Store) (id id2 : String) (f : Task → Task) (h : id ≠ id2) :
    (st.update id f).find? id2 = st.find? id2 :=
  lookupS_updateS_ne st id id2 f h

theorem find?_update (st : Store) (id id2 : String) (f : Task → Task) :
    (st.update id f).find? id2 =
      if id = id2 then (st.find? id2).map f else st.find? id2 :=
  lookupS_updateS st id id2 f

/-! Claim C4. -/

/-- Claim C4, counterexample: `_update_progress` overwrites the stored percentage
with whatever value is reported, so a delivered in-order report sequence 50, 30
during a PROCESSING run makes the stored percentage decrease between two
consecutive applied reports, refuting the claim as stated. -/
theorem C4_counterexample :
    ((applyProgress [("j", taskP 10)] "j" 50).find? "j").map Task.percentage = some 50 ∧
    ((applyProgress (applyProgress [("j", taskP 10)] "j" 50) "j" 30).find? "j").map
        Task.percentage = some 30 ∧
    (30 : Int) < 50 := by
  refine ⟨?_, ?_, ?_⟩ <;> decide

/-- Claim C4, amended: each applied progress report overwrites the stored
percentage with the reported value, so the stored percentage is non-decreasing
between consecutive applied reports exactly when the delivered values are
non-decreasing; the store itself imposes no ordering. -/
theorem C4_amended (st : Store) (id : String) (t : Task) (p q : Int)
    (h : st.find? id = some t) (hpq : p ≤ q) :
    ((applyProgress st id p).find? id).map Task.percentage = some p ∧
    ((applyProgress (applyProgress st id p) id q).find? id).map Task.percentage = some q ∧
    p ≤ q := by
  have h1 : (applyProgress st id p).find? id = some { t with percentage := p } := by
    show (st.update id _).find? id = _
    rw [find?_update_self, h]
    rfl
  have h2 : (applyProgress (applyProgress st id p) id q).find? id
      = some { t with percentage := q } := by
    show ((applyProgress st id p).update id _).find? id = _
    rw [find?_update_self, h1]
    rfl
  exact ⟨by rw [h1]; rfl, by rw [h2]; rfl, hpq⟩

/-- Claim C4, witness for the amended theorem at a concrete store and reports. -/
theorem C4_amended_witness :
    ((applyProgress [("j", taskP 10)] "j" 40).find? "j").map Task.percentage = some 40 ∧
    ((applyProgress (applyProgress [("j", taskP 10)] "j" 40) "j" 60).find? "j").map
        Task.percentage = some 60 ∧
    (40 : Int) ≤ 60 :=
  C4_amended [("j", taskP 10)] "j" (taskP 10) 40 60 (by decide) (by decide)

/-! Claim C8. -/

/-- Claim C8: a status lookup and an output-location lookup for an id with no
row in the store both return `none` (a value distinct from every row and from
every lifecycle status) and are total, raising nothing. -/
theorem C8_unknown_id_lookups (st : Store) (id : String) (useGcs : Bool)
    (signedUrl : String → Option String) (h : st.find? id = none) :
    getTaskStatus st id useGcs signedUrl = none ∧ getOutputPath st id = none := by
  constructor
  · simp [getTaskStatus, h]
  · simp [getOutputPath, h]

/-- Claim C8, witness: concrete one-row store queried with an unknown id. -/
theorem C8_unknown_id_lookups_witness :
    getTaskStatus [("a", taskU)] "b" false (fun _ => none) = none ∧
    getOutputPath [("a", taskU)] "b" = none :=
  C8_unknown_id_lookups [("a", taskU)] "b" false (fun _ => none) (by decide)

/-! Claim C10. -/

/-- Claim C10: `mark_task_error` on an id with no row in the store returns
normally (the embedding is a total function) and leaves the store unchanged:
`scalar_one_or_none` yields `None` and the `if task:` guard skips the write. -/
theorem C10_mark_unknown_noop (st : Store) (id : String) (h : st.find? id = none) :
    markTaskError st id = st :=
  updateS_absent st id _ h

/-- Claim C10, witness: concrete one-row store, unknown id. -/
theorem C10_mark_unknown_noop_witness :
    markTaskError [("a", taskU)] "b" = [("a", taskU)] :=
  C10_mark_unknown_noop [("a", taskU)] "b" (by decide)

/-! Lemmas about `lstripSlash`. -/

theorem lstripSlash_slash_append (r : String) :
    lstripSlash ("/" ++ r) = lstripSlash r := by
  show String.mk (List.dropWhile _ (("/" ++ r).data)) = _
  rw [String.data_append]
  have h : ("/" : String).data = ['/'] := rfl
  rw [h]
  rfl

theorem dropWhile_dropWhile {α : Type} (p : α → Bool) (l : List α) :
    List.dropWhile p (List.dropWhile p l) = List.dropWhile p l := by
  induction l with
  | nil => rfl
  | cons a l ih =>
    by_cases h : p a
    · simp [List.dropWhile_cons_of_pos h, ih]
    · simp [List.dropWhile_cons_of_neg h]

theorem lstripSlash_idem (r : String) :
    lstripSlash (lstripSlash r) = lstripSlash r :=
  congrArg String.mk (dropWhile_dropWhile _ r.data)

/-! Claim C9. -/

/-- Claim C9: every GCS backend operation first strips the leading slashes from
the reference, so a reference with leading slashes is treated identically to
the stripped reference by read, exists, save, delete and signed-url naming; in
particular saving under a slashed name and reading back the plain name returns
the saved bytes. -/
theorem C9_gcs_leading_slash (g : GCSBucket) (r : String) (d : Bytes) :
    gcsRead g ("/" ++ r) = gcsRead g r ∧
    gcsExists g ("/" ++ r) = gcsExists g r ∧
    gcsSave g ("/" ++ r) d = gcsSave g r d ∧
    gcsDelete g ("/" ++ r) = gcsDelete g r ∧
    gcsSignedUrlBlobName ("/" ++ r) = gcsSignedUrlBlobName r ∧
    gcsRead g (lstripSlash r) = gcsRead g r ∧
    gcsRead (gcsSave g ("/" ++ r) d) r = .ok d := by
  have hs := lstripSlash_slash_append r
  have hi := lstripSlash_idem r
  refine ⟨?_, ?_, ?_, ?_, ?_, ?_, ?_⟩ <;>
    simp [gcsRead, gcsExists, gcsSave, gcsDelete, gcsSignedUrlBlobName, hs, hi,
      lookupS_insertS_self]

/-! Claim C5. -/

/-- Claim C5, counterexample: the claim quantifies over both backend
implementations, but the local filesystem backend defines no `delete` method at
all (only read, exists and save), so deleting an absent reference through it
raises `AttributeError` rather than succeeding as a no-op. -/
theorem C5_counterexample :
    fsBackendDelete "missing.png" = .error (.attributeError "delete") := rfl

/-- Claim C5, amended: only the GCS backend implements `delete`; for it, delete
of a reference that does not exist returns without error and changes nothing,
because the code guards the deletion with `blob.exists()`.  The filesystem
backend provides no delete operation at all. -/
theorem C5_amended (g : GCSBucket) (r : String) (h : gcsExists g r = false) :
    gcsDelete g r = g := by
  have h2 : (lookupS g (lstripSlash r)).isSome = false := h
  simp [gcsDelete, h2]

/-- Claim C5, witness for the amended theorem: a one-blob bucket and an absent
reference. -/
theorem C5_amended_witness : gcsDelete [("a", [1])] "b" = [("a", [1])] :=
  C5_amended [("a", [1])] "b" (by decide)

/-! Lemmas about the run-iteration model. -/

theorem find?_update_isSome (st : Store) (id : String) (f : Task → Task) (id2 : String) :
    ((st.update id f).find? id2).isSome = (st.find? id2).isSome := by
  rw [find?_update]
  split
  · cases st.find? id2 <;> rfl
  · rfl

theorem updateProgressCaught_false (st : Store) (id : String) (p : Int) :
    updateProgressCaught st id p false = st := rfl

theorem updateProgressCaught_isSome (st : Store) (id : String) (p : Int) (b : Bool)
    (id2 : String) :
    ((updateProgressCaught st id p b).find? id2).isSome = (st.find? id2).isSome := by
  cases b
  · rfl
  · exact find?_update_isSome st id _ id2

theorem applyReports_isSome (rs : List (Int × Bool)) (st : Store) (id id2 : String) :
    ((applyReports st id rs).find? id2).isSome = (st.find? id2).isSome := by
  induction rs generalizing st with
  | nil => rfl
  | cons r rs ih =>
    show ((applyReports (updateProgressCaught st id r.1 r.2) id rs).find? id2).isSome = _
    rw [ih, updateProgressCaught_isSome]

theorem applyReports_find?_self (rs : List (Int × Bool)) (st : Store) (id : String)
    (t : Task) (h : st.find? id = some t) :
    ∃ p, (applyReports st id rs).find? id = some { t with percentage := p } := by
  induction rs generalizing st t with
  | nil => exact ⟨t.percentage, h⟩
  | cons r rs ih =>
    obtain ⟨pv, pb⟩ := r
    cases pb
    · exact ih st t h
    · have h2 : (applyProgress st id pv).find? id = some { t with percentage := pv } := by
        show (st.update id _).find? id = _
        rw [find?_update_self, h]
        rfl
      exact ih (applyProgress st id pv) { t with percentage := pv } h2

theorem applyReports_find?_ne (rs : List (Int × Bool)) (st : Store) (id id2 : String)
    (h : id ≠ id2) :
    (applyReports st id rs).find? id2 = st.find? id2 := by
  induction rs generalizing st with
  | nil => rfl
  | cons r rs ih =>
    obtain ⟨pv, pb⟩ := r
    cases pb
    · exact ih st
    · exact (ih (applyProgress st id pv)).trans (find?_update_ne st id id2 _ h)

theorem exceptPath_present (st : Store) (id : String) (t : Task) (a b : Bool)
    (h : st.find? id = some t) :
    exceptPath st id a b = (failTask st id, .next) := by
  unfold exceptPath
  rw [h]

theorem exceptPath_flags (st : Store) (id : String) (a b a2 b2 : Bool) :
    exceptPath st id a b = exceptPath st id a2 b2 := rfl

/-- Row of the task after the except branch runs on a store reached from `st1`
by applying any list of progress reports: identical to running the except
branch directly on `st1`, since the reports only overwrite the percentage that
the ERROR update resets anyway. -/
theorem failTask_after_reports (st1 : Store) (id : String) (rs : List (Int × Bool))
    (tb : Task) (h : st1.find? id = some tb) (id2 : String) :
    (failTask (applyReports st1 id rs) id).find? id2 = (failTask st1 id).find? id2 := by
  by_cases he : id = id2
  · subst he
    obtain ⟨p, hp⟩ := applyReports_find?_self rs st1 id tb h
    show ((applyReports st1 id rs).update id _).find? id = (st1.update id _).find? id
    rw [find?_update_self, find?_update_self, hp, h]
    rfl
  · show ((applyReports st1 id rs).update id _).find? id2 = (st1.update id _).find? id2
    rw [find?_update_ne _ _ _ _ he, find?_update_ne _ _ _ _ he,
      applyReports_find?_ne rs st1 id id2 he]

/-- Same as `failTask_after_reports` for the FINISHED finalization. -/
theorem finishTask_after_reports (st1 : Store) (id : String) (rs : List (Int × Bool))
    (out : String) (tb : Task) (h : st1.find? id = some tb) (id2 : String) :
    (finishTask (applyReports st1 id rs) id out).find? id2
      = (finishTask st1 id out).find? id2 := by
  by_cases he : id = id2
  · subst he
    obtain ⟨p, hp⟩ := applyReports_find?_self rs st1 id tb h
    show ((applyReports st1 id rs).update id _).find? id = (st1.update id _).find? id
    rw [find?_update_self, find?_update_self, hp, h]
    rfl
  · show ((applyReports st1 id rs).update id _).find? id2 = (st1.update id _).find? id2
    rw [find?_update_ne _ _ _ _ he, find?_update_ne _ _ _ _ he,
      applyReports_find?_ne rs st1 id id2 he]

/-- Any iteration run on a task whose row exists hands control back to the
queue: the exception that could escape the loop only arises for an absent row. -/
theorem runOnce_next (st : Store) (id : String) (out : String) (env : StepOutcomes)
    (t : Task) (h : st.find? id = some t) :
    (runOnce st id out env).2 = .next := by
  have hpres : ∀ rs : List (Int × Bool),
      ∃ t2, (applyReports (beginProcessing st id) id rs).find? id = some t2 := by
    intro rs
    have h1 : (beginProcessing st id).find? id
        = some { t with status := .processing, percentage := 10 } := by
      show (st.update id _).find? id = _
      rw [find?_update_self, h]
      rfl
    obtain ⟨p, hp⟩ := applyReports_find?_self rs (beginProcessing st id) id _ h1
    exact ⟨_, hp⟩
  unfold runOnce
  by_cases hd : env.useGcs ∧ env.downloadOk = false
  · rw [if_pos hd, exceptPath_present st id t _ _ h]
  · rw [if_neg hd, h]
    obtain ⟨t2, h2⟩ := hpres env.reports
    by_cases hp : env.processOk = false
    · simp only [if_pos hp]
      rw [exceptPath_present _ id t2 _ _ h2]
    · by_cases hu : env.useGcs ∧ env.uploadOk = false
      · simp only [if_neg hp, if_pos hu]
        rw [exceptPath_present _ id t2 _ _ h2]
      · by_cases hc : env.useGcs ∧ env.tempCleanupOk = false
        · simp only [if_neg hp, if_neg hu, if_pos hc]
          rw [exceptPath_present _ id t2 _ _ h2]
        · simp only [if_neg hp, if_neg hu, if_neg hc]
          rw [h2]

/-! Claim C2. -/

/-- Claim C2: a dequeued job whose row exists (every dequeued job was queued
with `queue_task`, which requires the row) and that fails at the GCS download,
the processing call, the GCS upload, or the success-path temp cleanup, ends the
iteration with status ERROR, percentage 0 and no output path; the except-branch
cleanup attempts never change the result (their failures are swallowed); and the
loop hands control back to the queue — moreover an iteration on any present row
never halts the loop, so the next queued job is processed. -/
theorem C2_failure_isolated (st : Store) (id : String) (out : String)
    (env : StepOutcomes) (t : Task) (h : st.find? id = some t)
    (hout : t.output_path = none)
    (hfail : (env.useGcs ∧ env.downloadOk = false) ∨ env.processOk = false ∨
      (env.useGcs ∧ env.uploadOk = false) ∨ (env.useGcs ∧ env.tempCleanupOk = false)) :
    (∃ t2, (runOnce st id out env).1.find? id = some t2 ∧
      t2.status = .error ∧ t2.percentage = 0 ∧ t2.output_path = none) ∧
    (runOnce st id out env).2 = .next ∧
    (∀ b1 b2, runOnce st id out env
      = runOnce st id out { env with errCleanupInputOk := b1, errCleanupOutputOk := b2 }) ∧
    (∀ id2 t2 out2 env2, (runOnce st id out env).1.find? id2 = some t2 →
      (runOnce (runOnce st id out env).1 id2 out2 env2).2 = .next) := by
  have h1 : (beginProcessing st id).find? id
      = some { t with status := .processing, percentage := 10 } := by
    show (st.update id _).find? id = _
    rw [find?_update_self, h]
    rfl
  have hrowMain : (runOnce st id out env).1.find? id = some
      { t with status := .error, percentage := 0 } ∧ (runOnce st id out env).2 = .next := by
    by_cases hd : env.useGcs ∧ env.downloadOk = false
    · unfold runOnce
      rw [if_pos hd, exceptPath_present st id t _ _ h]
      constructor
      · show (st.update id _).find? id = _
        rw [find?_update_self, h]
        rfl
      · rfl
    · have hfail2 : env.processOk = false ∨ (env.useGcs ∧ env.uploadOk = false) ∨
          (env.useGcs ∧ env.tempCleanupOk = false) := by
        rcases hfail with hx | hx | hx | hx
        · exact absurd hx hd
        · exact Or.inl hx
        · exact Or.inr (Or.inl hx)
        · exact Or.inr (Or.inr hx)
      obtain ⟨p2, h2⟩ := applyReports_find?_self env.reports (beginProcessing st id) id _ h1
      have hfailrow :
          (failTask (applyReports (beginProcessing st id) id env.reports) id).find? id
            = some { t with status := .error, percentage := 0 } := by
        rw [failTask_after_reports (beginProcessing st id) id env.reports _ h1 id]
        show ((beginProcessing st id).update id _).find? id = _
        rw [find?_update_self, h1]
        rfl
      unfold runOnce
      rw [if_neg hd, h]
      rcases hfail2 with hx | hx | hx
      · simp only [if_pos hx]
        rw [exceptPath_present _ id _ _ _ h2]
        exact ⟨hfailrow, rfl⟩
      · by_cases hp : env.processOk = false
        · simp only [if_pos hp]
          rw [exceptPath_present _ id _ _ _ h2]
          exact ⟨hfailrow, rfl⟩
        · simp only [if_neg hp, if_pos hx]
          rw [exceptPath_present _ id _ _ _ h2]
          exact ⟨hfailrow, rfl⟩
      · by_cases hp : env.processOk = false
        · simp only [if_pos hp]
          rw [exceptPath_present _ id _ _ _ h2]
          exact ⟨hfailrow, rfl⟩
        · by_cases hu : env.useGcs ∧ env.uploadOk = false
          · simp only [if_neg hp, if_pos hu]
            rw [exceptPath_present _ id _ _ _ h2]
            exact ⟨hfailrow, rfl⟩
          · simp only [if_neg hp, if_neg hu, if_pos hx]
            rw [exceptPath_present _ id _ _ _ h2]
            exact ⟨hfailrow, rfl⟩
  refine ⟨⟨{ t with status := .error, percentage := 0 }, hrowMain.1, rfl, rfl, hout⟩,
    hrowMain.2, ?_, ?_⟩
  · intro b1 b2
    rfl
  · intro id2 t2 out2 env2 hfind
    exact runOnce_next _ id2 out2 env2 t2 hfind

/-- Claim C2, witness: single-row store, local mode, processing raises. -/
theorem C2_failure_isolated_witness :
    (∃ t2, (runOnce [("j", taskP 0)] "j" "o.mp4"
        { useGcs := false, downloadOk := true, reports := [(55, true)],
          processOk := false, uploadOk := true, tempCleanupOk := true,
          errCleanupInputOk := true, errCleanupOutputOk := true }).1.find? "j" = some t2 ∧
      t2.status = .error ∧ t2.percentage = 0 ∧ t2.output_path = none) ∧
    (runOnce [("j", taskP 0)] "j" "o.mp4"
        { useGcs := false, downloadOk := true, reports := [(55, true)],
          processOk := false, uploadOk := true, tempCleanupOk := true,
          errCleanupInputOk := true, errCleanupOutputOk := true }).2 = .next ∧
    (∀ b1 b2, runOnce [("j", taskP 0)] "j" "o.mp4"
        { useGcs := false, downloadOk := true, reports := [(55, true)],
          processOk := false, uploadOk := true, tempCleanupOk := true,
          errCleanupInputOk := true, errCleanupOutputOk := true }
      = runOnce [("j", taskP 0)] "j" "o.mp4"
        { useGcs := false, downloadOk := true, reports := [(55, true)],
          processOk := false, uploadOk := true, tempCleanupOk := true,
          errCleanupInputOk := b1, errCleanupOutputOk := b2 }) ∧
    (∀ id2 t2 out2 env2, (runOnce [("j", taskP 0)] "j" "o.mp4"
        { useGcs := false, downloadOk := true, reports := [(55, true)],
          processOk := false, uploadOk := true, tempCleanupOk := true,
          errCleanupInputOk := true, errCleanupOutputOk := true }).1.find? id2 = some t2 →
      (runOnce (runOnce [("j", taskP 0)] "j" "o.mp4"
        { useGcs := false, downloadOk := true, reports := [(55, true)],
          processOk := false, uploadOk := true, tempCleanupOk := true,
          errCleanupInputOk := true, errCleanupOutputOk := true }).1 id2 out2 env2).2
        = .next) :=
  C2_failure_isolated [("j", taskP 0)] "j" "o.mp4"
    { useGcs := false, downloadOk := true, reports := [(55, true)],
      processOk := false, uploadOk := true, tempCleanupOk := true,
      errCleanupInputOk := true, errCleanupOutputOk := true }
    (taskP 0) (by decide) (by decide) (Or.inr (Or.inl rfl))

/-! Claim C6. -/

/-- Claim C6: progress reporting is isolated.  A failing progress write is
caught inside `_update_progress`, returning with the store unchanged; and
neither the delivered report values nor the success of their database writes
influence the iteration outcome or any final row of the store: two runs of the
same iteration that differ only in their report list end with the same loop
outcome and rows that agree at every id. -/
theorem C6_progress_isolated (st : Store) (id : String) (out : String)
    (env : StepOutcomes) (rs1 rs2 : List (Int × Bool)) :
    (∀ p, updateProgressCaught st id p false = st) ∧
    (runOnce st id out { env with reports := rs1 }).2
      = (runOnce st id out { env with reports := rs2 }).2 ∧
    (∀ id2, (runOnce st id out { env with reports := rs1 }).1.find? id2
      = (runOnce st id out { env with reports := rs2 }).1.find? id2) := by
  refine ⟨fun _ => rfl, ?_⟩
  have key : ∀ id2, ((runOnce st id out { env with reports := rs1 }).2
        = (runOnce st id out { env with reports := rs2 }).2) ∧
      ((runOnce st id out { env with reports := rs1 }).1.find? id2
        = (runOnce st id out { env with reports := rs2 }).1.find? id2) := by
    intro id2
    unfold runOnce
    by_cases hd : env.useGcs ∧ env.downloadOk = false
    · simp only [if_pos hd]
      exact ⟨by trivial, by trivial⟩
    · simp only [if_neg hd]
      cases h : st.find? id with
      | none => exact ⟨by trivial, by trivial⟩
      | some t =>
        have h1 : (beginProcessing st id).find? id
            = some { t with status := .processing, percentage := 10 } := by
          show (st.update id _).find? id = _
          rw [find?_update_self, h]
          rfl
        obtain ⟨pa, ha⟩ := applyReports_find?_self rs1 (beginProcessing st id) id _ h1
        obtain ⟨pb, hb⟩ := applyReports_find?_self rs2 (beginProcessing st id) id _ h1
        have hfail := failTask_after_reports (beginProcessing st id) id rs1 _ h1 id2
        have hfail2 := failTask_after_reports (beginProcessing st id) id rs2 _ h1 id2
        have hfin := finishTask_after_reports (beginProcessing st id) id rs1 out _ h1 id2
        have hfin2 := finishTask_after_reports (beginProcessing st id) id rs2 out _ h1 id2
        by_cases hp : env.processOk = false
        · simp only [if_pos hp]
          rw [exceptPath_present _ id _ _ _ ha, exceptPath_present _ id _ _ _ hb]
          exact ⟨rfl, hfail.trans hfail2.symm⟩
        · by_cases hu : env.useGcs ∧ env.uploadOk = false
          · simp only [if_neg hp, if_pos hu]
            rw [exceptPath_present _ id _ _ _ ha, exceptPath_present _ id _ _ _ hb]
            exact ⟨rfl, hfail.trans hfail2.symm⟩
          · by_cases hc : env.useGcs ∧ env.tempCleanupOk = false
            · simp only [if_neg hp, if_neg hu, if_pos hc]
              rw [exceptPath_present _ id _ _ _ ha, exceptPath_present _ id _ _ _ hb]
              exact ⟨rfl, hfail.trans hfail2.symm⟩
            · simp only [if_neg hp, if_neg hu, if_neg hc]
              rw [ha, hb]
              exact ⟨rfl, hfin.trans hfin2.symm⟩
  exact ⟨(key id).1, fun id2 => (key id2).2⟩

/-! Invariant preservation for the system transition relation. -/

theorem find?_createTask (st : Store) (id id2 : String) :
    (createTask st id).find? id2 =
      if id = id2 then
        some { video_path := "", status := .uploading, percentage := 0,
               output_path := none, download_url := none }
      else st.find? id2 := rfl

theorem storeOk_update_of (st : Store) (id : String) (f : Task → Task) (h : StoreOk st)
    (hf : ∀ t, st.find? id = some t → TaskOk (f t)) : StoreOk (st.update id f) := by
  intro id2 t2 h2
  rw [find?_update] at h2
  by_cases he : id = id2
  · rw [if_pos he] at h2
    subst he
    cases h0 : st.find? id with
    | none => rw [h0] at h2; simp at h2
    | some t0 =>
      rw [h0] at h2
      have h3 : f t0 = t2 := by injection h2
      subst h3
      exact hf t0 h0
  · rw [if_neg he] at h2
    exact h id2 t2 h2

theorem storeOk_createTask (st : Store) (id : String) (h : StoreOk st) :
    StoreOk (createTask st id) := by
  intro id2 t2 h2
  rw [find?_createTask] at h2
  by_cases he : id = id2
  · rw [if_pos he] at h2
    injection h2 with h3
    subst h3
    exact ⟨fun hx => Status.noConfusion hx, fun _ => ⟨rfl, rfl⟩⟩
  · rw [if_neg he] at h2
    exact h id2 t2 h2

theorem sysInvParts (store : Store) (queue : List String) (active : Option String)
    (h1 : StoreOk store)
    (h2 : ∀ id, active = some id → ∃ t, store.find? id = some t ∧
      (t.status = .processing ∨ t.status = .error)) :
    SysInv ⟨store, queue, active⟩ := ⟨h1, h2⟩

theorem sysInv_step (s s' : SysState) (hs : SysInv s) (h : Step s s') : SysInv s' := by
  obtain ⟨hst, hact⟩ := hs
  cases h with
  | createT id hfresh heq =>
    subst heq
    refine sysInvParts _ _ _ (storeOk_createTask s.store id hst) ?_
    intro id3 ha3
    obtain ⟨t0, h0, hstat⟩ := hact id3 ha3
    have hne : id ≠ id3 := by
      intro he
      subst he
      rw [h0] at hfresh
      simp at hfresh
    refine ⟨t0, ?_, hstat⟩
    rw [find?_createTask, if_neg hne]
    exact h0
  | queueT id path t hex heq =>
    subst heq
    refine sysInvParts _ _ _ ?_ ?_
    · exact storeOk_update_of s.store id _ hst
        (fun t0 _ => ⟨fun hx => Status.noConfusion hx, fun hx => Status.noConfusion hx⟩)
    · intro id3 ha3
      obtain ⟨t1, h1, hstat⟩ := hact id3 ha3
      by_cases he : id = id3
      · subst he
        refine ⟨{ t1 with video_path := path, status := .processing, percentage := 0 },
          ?_, Or.inl rfl⟩
        rw [show queueTask s.store id path = s.store.update id _ from rfl,
          find?_update_self, h1]
        rfl
      · refine ⟨t1, ?_, hstat⟩
        rw [show queueTask s.store id path = s.store.update id _ from rfl,
          find?_update_ne _ _ _ _ he]
        exact h1
  | beginT id rest t hq ha hex heq =>
    subst heq
    refine sysInvParts _ _ _ ?_ ?_
    · exact storeOk_update_of s.store id _ hst
        (fun t0 _ => ⟨fun hx => Status.noConfusion hx, fun hx => Status.noConfusion hx⟩)
    · intro id3 ha3
      have he : id = id3 := by injection ha3
      subst he
      refine ⟨{ t with status := .processing, percentage := 10 }, ?_, Or.inl rfl⟩
      rw [show beginProcessing s.store id = s.store.update id _ from rfl,
        find?_update_self, hex]
      rfl
  | beginFailT id rest t hq ha hex heq =>
    subst heq
    refine sysInvParts _ _ _ ?_ ?_
    · exact storeOk_update_of s.store id _ hst
        (fun t0 _ => ⟨fun hx => Status.noConfusion hx, fun hx => Status.noConfusion hx⟩)
    · intro id3 ha3
      exact Option.noConfusion ha3
  | progressT id p ha heq =>
    subst heq
    refine sysInvParts _ _ _ ?_ ?_
    · refine storeOk_update_of s.store id _ hst ?_
      intro t0 h0
      obtain ⟨t1, h1, hstat⟩ := hact id ha
      rw [h0] at h1
      have h1e : t0 = t1 := by injection h1
      subst h1e
      rcases hstat with hx | hx
      · exact ⟨fun hy => Status.noConfusion (hx ▸ hy),
          fun hy => Status.noConfusion (hx ▸ hy)⟩
      · exact ⟨fun hy => Status.noConfusion (hx ▸ hy),
          fun hy => Status.noConfusion (hx ▸ hy)⟩
    · intro id3 ha3
      rw [ha] at ha3
      have he : id = id3 := by injection ha3
      subst he
      obtain ⟨t1, h1, hstat⟩ := hact id ha
      refine ⟨{ t1 with percentage := p }, ?_, ?_⟩
      · rw [show applyProgress s.store id p = s.store.update id _ from rfl,
          find?_update_self, h1]
        rfl
      · exact hstat
  | finishT id out t ha hex heq =>
    subst heq
    refine sysInvParts _ _ _ ?_ ?_
    · refine storeOk_update_of s.store id _ hst ?_
      intro t0 _
      exact ⟨fun _ => ⟨rfl, by simp⟩, fun hx => Status.noConfusion hx⟩
    · intro id3 ha3
      exact Option.noConfusion ha3
  | failT id t ha hex heq =>
    subst heq
    refine sysInvParts _ _ _ ?_ ?_
    · exact storeOk_update_of s.store id _ hst
        (fun t0 _ => ⟨fun hx => Status.noConfusion hx, fun hx => Status.noConfusion hx⟩)
    · intro id3 ha3
      exact Option.noConfusion ha3
  | markErrorT id heq =>
    subst heq
    refine sysInvParts _ _ _ ?_ ?_
    · exact storeOk_update_of s.store id _ hst
        (fun t0 _ => ⟨fun hx => Status.noConfusion hx, fun hx => Status.noConfusion hx⟩)
    · intro id3 ha3
      obtain ⟨t1, h1, hstat⟩ := hact id3 ha3
      by_cases he : id = id3
      · subst he
        refine ⟨{ t1 with status := .error, percentage := 0 }, ?_, Or.inr rfl⟩
        rw [show markTaskError s.store id = s.store.update id _ from rfl,
          find?_update_self, h1]
        rfl
      · refine ⟨t1, ?_, hstat⟩
        rw [show markTaskError s.store id = s.store.update id _ from rfl,
          find?_update_ne _ _ _ _ he]
        exact h1

theorem reachable_sysInv (s : SysState) (h : Reachable s) : SysInv s := by
  induction h with
  | refl =>
    exact ⟨fun id t h2 => Option.noConfusion h2, fun id h2 => Option.noConfusion h2⟩
  | tail hAB hBC ih => exact sysInv_step _ _ ih hBC

/-! The concrete trace. -/

theorem step_cex1 : Step initState cexS1 := Step.createT "j" rfl rfl

theorem step_cex2 : Step cexS1 cexS2 := Step.queueT "j" "v.mp4" taskU (by decide) rfl

theorem step_cex3 : Step cexS2 cexS3 :=
  Step.beginT "j" []
    { video_path := "v.mp4", status := .processing, percentage := 0,
      output_path := none, download_url := none }
    rfl rfl (by decide) rfl

theorem step_cex4 : Step cexS3 cexS4 := Step.progressT "j" 100 rfl rfl

theorem step_cex5 : Step cexS4 cexS5 :=
  Step.finishT "j" "o.mp4" cexP rfl (by decide) rfl

theorem step_cex6 : Step cexS5 cexS6 := Step.markErrorT "j" rfl

theorem reachable_cexS4 : Reachable cexS4 :=
  Relation.ReflTransGen.tail
    (Relation.ReflTransGen.tail
      (Relation.ReflTransGen.tail
        (Relation.ReflTransGen.tail Relation.ReflTransGen.refl step_cex1)
        step_cex2)
      step_cex3)
    step_cex4

theorem reachable_cexS5 : Reachable cexS5 :=
  Relation.ReflTransGen.tail reachable_cexS4 step_cex5

/-! Claim C1. -/

/-- Claim C1, counterexample: the state after create j, queue j, worker pickup
and an in-run progress report of 100 is reachable, and in it the row of j has
percentage 100 while its status is PROCESSING — refuting the claimed
equivalence percentage == 100 iff status == FINISHED (and with it the full
conjunction) on a reachable state. -/
theorem C1_counterexample :
    Reachable cexS4 ∧ cexS4.store.find? "j" = some cexP ∧
    cexP.percentage = 100 ∧ cexP.status ≠ .finished :=
  ⟨reachable_cexS4, by decide, rfl, by decide⟩

/-- Claim C1, amended: in every reachable state, every FINISHED row has
percentage 100 and a non-null output path, and every UPLOADING row has
percentage 0 and a null output path.  The converse directions of the claim do
not hold: a progress report of 100 delivered while the job is PROCESSING gives
percentage 100 without FINISHED, and `mark_task_error` on a FINISHED job
produces an ERROR row whose output path is still set. -/
theorem C1_amended_invariant (s : SysState) (h : Reachable s) (id : String) (t : Task)
    (hfind : s.store.find? id = some t) :
    (t.status = .finished → t.percentage = 100 ∧ t.output_path ≠ none) ∧
    (t.status = .uploading → t.percentage = 0 ∧ t.output_path = none) :=
  (reachable_sysInv s h).1 id t hfind

/-- Claim C1, witness for the amended theorem: the reachable state `cexS5` and
its FINISHED row. -/
theorem C1_amended_invariant_witness :
    (cexF.status = .finished → cexF.percentage = 100 ∧ cexF.output_path ≠ none) ∧
    (cexF.status = .uploading → cexF.percentage = 0 ∧ cexF.output_path = none) :=
  C1_amended_invariant cexS5 reachable_cexS5 "j" cexF (by decide)

/-! Claim C3. -/

/-- Claim C3, counterexample: `cexS5` is reachable and holds job j FINISHED;
one `mark_task_error` step later the same job is ERROR — so FINISHED is not
terminal against the operations the claim lists. -/
theorem C3_counterexample :
    Reachable cexS5 ∧ cexS5.store.find? "j" = some cexF ∧ cexF.status = .finished ∧
    Step cexS5 cexS6 ∧ cexS6.store.find? "j" = some cexE ∧ cexE.status = .error :=
  ⟨reachable_cexS5, by decide, rfl, step_cex6, by decide, rfl⟩

/-- Claim C3, amended: progress updates never change any status, and
`mark_task_error` always writes ERROR to an existing row — so ERROR is stable
under `mark_task_error` and under progress updates; but `mark_task_error`
turns a FINISHED job into ERROR, and the worker finalization turns any
existing row, ERROR included, into FINISHED, so neither FINISHED nor ERROR is
terminal against the listed operations. -/
theorem C3_amended :
    (∀ (st : Store) (id id2 : String) (p : Int),
      ((applyProgress st id p).find? id2).map Task.status
        = (st.find? id2).map Task.status) ∧
    (∀ (st : Store) (id : String) (t : Task), st.find? id = some t →
      ((markTaskError st id).find? id).map Task.status = some .error) ∧
    (∀ (st : Store) (id out : String) (t : Task), st.find? id = some t →
      ((finishTask st id out).find? id).map Task.status = some .finished) := by
  refine ⟨?_, ?_, ?_⟩
  · intro st id id2 p
    show ((st.update id _).find? id2).map Task.status = _
    rw [find?_update]
    split
    · cases st.find? id2 <;> rfl
    · rfl
  · intro st id t h
    show ((st.update id _).find? id).map Task.status = _
    rw [find?_update_self, h]
    rfl
  · intro st id out t h
    show ((st.update id _).find? id).map Task.status = _
    rw [find?_update_self, h]
    rfl

/-! Lemmas about the filesystem model. -/

theorem isEmpty_false_of_ne {α : Type} (l : List α) (h : l ≠ []) : l.isEmpty = false := by
  cases l with
  | nil => exact absurd rfl h
  | cons a t => rfl

theorem lookupS_mem {κ α : Type} [DecidableEq κ] (l : List (κ × α)) (k : κ) (v : α)
    (h : lookupS l k = some v) : (k, v) ∈ l := by
  induction l with
  | nil => cases h
  | cons hd tl ih =>
    obtain ⟨k0, v0⟩ := hd
    by_cases he : k0 = k
    · subst he
      rw [lookupS, if_pos rfl] at h
      injection h with h2
      subst h2
      exact List.mem_cons_self _ _
    · rw [lookupS, if_neg he] at h
      exact List.mem_cons_of_mem _ (ih h)

theorem wfFS_prefix (fs : FS) (hwf : wfFS fs = true) (p : FPath) (n : FNode)
    (h : lookupS fs p = some n) (q : FPath) (hq : q <+: p) (hne : q ≠ [])
    (hneq : q ≠ p) : lookupS fs q = some FNode.dir := by
  have hmem := lookupS_mem fs p n h
  have h2 := (List.all_eq_true.mp hwf) (p, n) hmem
  have h3 := (List.all_eq_true.mp h2) q ((List.mem_inits _ _).mpr hq)
  have hcond : ¬ (q.isEmpty = true ∨ q = p) := by
    intro hor
    rcases hor with hx | hx
    · rw [isEmpty_false_of_ne q hne] at hx
      cases hx
    · exact hneq hx
  rw [if_neg hcond] at h3
  exact of_decide_eq_true h3

theorem prefixesClear_mono (fs : FS) (p q : FPath) (hc : prefixesClear fs p = true)
    (hq : q <+: p) : prefixesClear fs q = true := by
  unfold prefixesClear at hc ⊢
  rw [List.all_eq_true] at hc ⊢
  intro r hr
  exact hc r ((List.mem_inits _ _).mpr (((List.mem_inits _ _).mp hr).trans hq))

theorem prefixesClear_lookup (fs : FS) (p : FPath) (hc : prefixesClear fs p = true)
    (q : FPath) (hq : q <+: p) (b : Bytes) : lookupS fs q ≠ some (.file b) := by
  intro hfile
  unfold prefixesClear at hc
  rw [List.all_eq_true] at hc
  have h2 := hc q ((List.mem_inits _ _).mpr hq)
  rw [hfile] at h2
  cases h2

theorem prefix_dropLast_of_ne (q p : FPath) (hq : q <+: p) (hne : q ≠ p) :
    q <+: p.dropLast := by
  obtain ⟨s, rfl⟩ := hq
  cases s with
  | nil => simp at hne
  | cons b s2 =>
    rw [List.dropLast_append_cons]
    exact ⟨(b :: s2).dropLast, rfl⟩

theorem not_prefix_dropLast (p : FPath) (hne : p ≠ []) : ¬ p <+: p.dropLast := by
  intro hpre
  have h1 := hpre.length_le
  rw [List.length_dropLast] at h1
  have h2 : p.length ≠ 0 := fun h0 => hne (List.length_eq_zero.mp h0)
  omega

theorem pathExists_false_lookup (fs : FS) (p : FPath) (hne : p ≠ [])
    (h : pathExists fs p = false) : lookupS fs p = none := by
  unfold pathExists at h
  rw [isEmpty_false_of_ne p hne] at h
  simp only [Bool.false_eq_true, if_false] at h
  cases hl : lookupS fs p with
  | none => rfl
  | some v =>
    rw [hl] at h
    cases h

theorem pathExists_true_lookup (fs : FS) (p : FPath) (h : pathExists fs p = true) :
    ∃ n, lookupS fs p = some n := by
  unfold pathExists at h
  by_cases he : p.isEmpty = true
  · rw [if_pos he] at h
    cases h
  · rw [if_neg he] at h
    cases hl : lookupS fs p with
    | none =>
      rw [hl] at h
      cases h
    | some v => exact ⟨v, rfl⟩

theorem isdir_true_iff (fs : FS) (p : FPath) (hne : p ≠ []) :
    isdir fs p = true ↔ lookupS fs p = some FNode.dir := by
  unfold isdir
  rw [isEmpty_false_of_ne p hne]
  simp only [Bool.false_eq_true, if_false]
  cases hl : lookupS fs p with
  | none => simp
  | some n => cases n <;> simp

theorem mkdir_ok (fs : FS) (p : FPath) (hne : p ≠ [])
    (hpar : p.dropLast = [] ∨ lookupS fs p.dropLast = some FNode.dir)
    (habs : lookupS fs p = none) :
    mkdir fs p = .ok (insertS fs p .dir) := by
  unfold mkdir
  rw [isEmpty_false_of_ne p hne]
  simp only [Bool.false_eq_true, if_false]
  have hpar2 : (if p.dropLast.isEmpty then some FNode.dir else lookupS fs p.dropLast)
      = some FNode.dir := by
    by_cases he : p.dropLast.isEmpty = true
    · rw [if_pos he]
    · rw [if_neg he]
      rcases hpar with hx | hx
      · rw [hx] at he
        exact absurd rfl he
      · exact hx
  rw [hpar2, habs]

theorem mkdir_err_parentFile (fs : FS) (p : FPath) (hne : p ≠ []) (b : Bytes)
    (hpne : p.dropLast ≠ []) (hpar : lookupS fs p.dropLast = some (.file b)) :
    mkdir fs p = .error .enotdir := by
  unfold mkdir
  rw [isEmpty_false_of_ne p hne]
  simp only [Bool.false_eq_true, if_false]
  have hcond : ¬ (p.dropLast.isEmpty = true) := by
    rw [isEmpty_false_of_ne _ hpne]
    simp
  rw [if_neg hcond, hpar]

theorem mkdir_err_parentAbsent (fs : FS) (p : FPath) (hne : p ≠ [])
    (hpne : p.dropLast ≠ []) (hpar : lookupS fs p.dropLast = none) :
    mkdir fs p = .error .enoent := by
  unfold mkdir
  rw [isEmpty_false_of_ne p hne]
  simp only [Bool.false_eq_true, if_false]
  have hcond : ¬ (p.dropLast.isEmpty = true) := by
    rw [isEmpty_false_of_ne _ hpne]
    simp
  rw [if_neg hcond, hpar]

/-- Success of `makedirs` on a path whose nonempty prefixes are all absent or
directories: every missing directory on the chain is created, the target ends
as a directory, and no other path is touched. -/
theorem makedirs_ok_aux (n : Nat) : ∀ (p : FPath) (fs : FS), p.length ≤ n →
    prefixesClear fs p = true → p ≠ [] → lookupS fs p = none →
    ∃ fs2, makedirs fs p = .ok fs2 ∧ lookupS fs2 p = some FNode.dir ∧
      ∀ r : FPath, ¬ r <+: p → lookupS fs2 r = lookupS fs r := by
  induction n with
  | zero =>
    intro p fs hlen hclear hne habs
    cases p with
    | nil => exact absurd rfl hne
    | cons a l => simp at hlen
  | succ n ih =>
    intro p fs hlen hclear hne habs
    have hnp_dl : ¬ p <+: p.dropLast := not_prefix_dropLast p hne
    by_cases hcond : p.dropLast ≠ [] ∧ pathExists fs p.dropLast = false
    · have hlen2 : p.dropLast.length ≤ n := by
        rw [List.length_dropLast]
        have h2 : p.length ≠ 0 := fun h0 => hne (List.length_eq_zero.mp h0)
        omega
      have hclear2 : prefixesClear fs p.dropLast = true :=
        prefixesClear_mono fs p _ hclear (List.dropLast_prefix p)
      have habs2 : lookupS fs p.dropLast = none :=
        pathExists_false_lookup fs _ hcond.1 hcond.2
      obtain ⟨fs2, hmk, hdir2, hpres2⟩ := ih p.dropLast fs hlen2 hclear2 hcond.1 habs2
      have habs_p2 : lookupS fs2 p = none := (hpres2 p hnp_dl).trans habs
      have hmk2 : mkdir fs2 p = .ok (insertS fs2 p .dir) :=
        mkdir_ok fs2 p hne (Or.inr hdir2) habs_p2
      refine ⟨insertS fs2 p .dir, ?_, ?_, ?_⟩
      · unfold makedirs
        rw [dif_pos hcond]
        simp only [hmk]
        exact hmk2
      · rw [lookupS_insertS_self]
      · intro r hr
        have hrp : p ≠ r := fun he => hr (he ▸ List.prefix_refl r)
        rw [lookupS_insertS_ne fs2 p r _ hrp]
        exact hpres2 r (fun hpre => hr (hpre.trans (List.dropLast_prefix p)))
    · have hpar : p.dropLast = [] ∨ lookupS fs p.dropLast = some FNode.dir := by
        by_cases hd : p.dropLast = []
        · exact Or.inl hd
        · have hex : pathExists fs p.dropLast = true := by
            cases hpe : pathExists fs p.dropLast with
            | false => exact absurd ⟨hd, hpe⟩ hcond
            | true => rfl
          obtain ⟨nd, hnd⟩ := pathExists_true_lookup fs _ hex
          cases nd with
          | dir => exact Or.inr hnd
          | file b =>
            exact absurd hnd
              (prefixesClear_lookup fs p hclear _ (List.dropLast_prefix p) b)
      have hmk2 : mkdir fs p = .ok (insertS fs p .dir) := mkdir_ok fs p hne hpar habs
      refine ⟨insertS fs p .dir, ?_, ?_, ?_⟩
      · unfold makedirs
        rw [dif_neg hcond]
        exact hmk2
      · rw [lookupS_insertS_self]
      · intro r hr
        exact lookupS_insertS_ne fs p r _ (fun he => hr (he ▸ List.prefix_refl r))

/-- Failure of `makedirs` when some nonempty prefix of the (absent) target is
occupied by a regular file, on a well-formed filesystem. -/
theorem makedirs_err_aux (n : Nat) : ∀ (p : FPath) (fs : FS), p.length ≤ n →
    wfFS fs = true →
    (∃ q b, q <+: p ∧ q ≠ [] ∧ lookupS fs q = some (.file b)) →
    pathExists fs p = false →
    ∃ e, makedirs fs p = .error e := by
  induction n with
  | zero =>
    intro p fs hlen hwf hq hpe
    obtain ⟨q, b, hqp, hqne, hqf⟩ := hq
    cases p with
    | nil => exact absurd (List.prefix_nil.mp hqp) hqne
    | cons a l => simp at hlen
  | succ n ih =>
    intro p fs hlen hwf hq hpe
    obtain ⟨q, b, hqp, hqne, hqf⟩ := hq
    have hpne : p ≠ [] := by
      intro he
      subst he
      exact hqne (List.prefix_nil.mp hqp)
    have hpabs : lookupS fs p = none := pathExists_false_lookup fs p hpne hpe
    have hqnep : q ≠ p := by
      intro he
      subst he
      rw [hpabs] at hqf
      exact Option.noConfusion hqf
    have hqdl : q <+: p.dropLast := prefix_dropLast_of_ne q p hqp hqnep
    by_cases hcond : p.dropLast ≠ [] ∧ pathExists fs p.dropLast = false
    · have hlen2 : p.dropLast.length ≤ n := by
        rw [List.length_dropLast]
        have h2 : p.length ≠ 0 := fun h0 => hpne (List.length_eq_zero.mp h0)
        omega
      obtain ⟨e, he⟩ := ih p.dropLast fs hlen2 hwf ⟨q, b, hqdl, hqne, hqf⟩ hcond.2
      unfold makedirs
      rw [dif_pos hcond]
      cases e with
      | eexist =>
        refine ⟨.enoent, ?_⟩
        simp only [he]
        exact mkdir_err_parentAbsent fs p hpne hcond.1
          (pathExists_false_lookup fs _ hcond.1 hcond.2)
      | enoent => exact ⟨.enoent, by simp only [he]⟩
      | enotdir => exact ⟨.enotdir, by simp only [he]⟩
      | eisdir => exact ⟨.eisdir, by simp only [he]⟩
      | ioErrorNotDir pp => exact ⟨.ioErrorNotDir pp, by simp only [he]⟩
    · by_cases hd : p.dropLast = []
      · rw [hd] at hqdl
        exact absurd (List.prefix_nil.mp hqdl) hqne
      · have hex : pathExists fs p.dropLast = true := by
          cases hpe2 : pathExists fs p.dropLast with
          | false => exact absurd ⟨hd, hpe2⟩ hcond
          | true => rfl
        obtain ⟨nd, hnd⟩ := pathExists_true_lookup fs _ hex
        cases nd with
        | file b2 =>
          refine ⟨.enotdir, ?_⟩
          unfold makedirs
          rw [dif_neg hcond]
          exact mkdir_err_parentFile fs p hpne b2 hd hnd
        | dir =>
          by_cases hqh : q = p.dropLast
          · rw [hqh, hnd] at hqf
            exact FNode.noConfusion (Option.some.inj hqf)
          · have hw := wfFS_prefix fs hwf p.dropLast .dir hnd q hqdl hqne hqh
            rw [hw] at hqf
            exact FNode.noConfusion (Option.some.inj hqf)

/-- Success of `save`: intermediate directories are created as needed and the
destination ends up holding exactly the new data, overwriting any previous
file. -/
theorem fsSave_ok (fs : FS) (fp : FPath) (d : Bytes)
    (hclear : prefixesClear fs fp.dropLast = true) (hdne : fp.dropLast ≠ [])
    (hnd : lookupS fs fp ≠ some FNode.dir) :
    ∃ fs2, fsSave fs fp d = .ok fs2 ∧ lookupS fs2 fp = some (.file d) ∧
      isdir fs2 fp.dropLast = true := by
  have hfpne : fp ≠ [] := by
    intro he
    subst he
    exact hdne rfl
  have hne2 : fp ≠ fp.dropLast :=
    fun he => (not_prefix_dropLast fp hfpne) (he ▸ List.prefix_refl fp)
  cases hpe : pathExists fs fp.dropLast with
  | false =>
    have habs := pathExists_false_lookup fs _ hdne hpe
    obtain ⟨fs2, hmk, hdir2, hpres2⟩ :=
      makedirs_ok_aux fp.dropLast.length fp.dropLast fs le_rfl hclear hdne habs
    have hprep : savePrep fs fp.dropLast = .ok fs2 := by
      unfold savePrep
      rw [if_pos hpe]
      simp only [hmk]
    have hisdir2 : isdir fs2 fp.dropLast = true := (isdir_true_iff fs2 _ hdne).mpr hdir2
    have hfp2 : lookupS fs2 fp = lookupS fs fp := hpres2 fp (not_prefix_dropLast fp hfpne)
    refine ⟨insertS fs2 fp (.file d), ?_, ?_, ?_⟩
    · unfold fsSave
      simp only [hprep]
      rw [if_neg (by rw [hisdir2]; simp)]
      cases hl : lookupS fs2 fp with
      | none => rfl
      | some nd2 =>
        cases nd2 with
        | file b2 => rfl
        | dir => exact absurd (hfp2 ▸ hl) hnd
    · rw [lookupS_insertS_self]
    · rw [isdir_true_iff _ _ hdne, lookupS_insertS_ne fs2 fp _ _ hne2]
      exact hdir2
  | true =>
    have hprep : savePrep fs fp.dropLast = .ok fs := by
      unfold savePrep
      rw [if_neg (by rw [hpe]; simp)]
    obtain ⟨nd, hnd2⟩ := pathExists_true_lookup fs _ hpe
    have hdir : lookupS fs fp.dropLast = some FNode.dir := by
      cases nd with
      | dir => exact hnd2
      | file b =>
        exact absurd hnd2
          (prefixesClear_lookup fs fp.dropLast hclear _ (List.prefix_refl _) b)
    have hisdir : isdir fs fp.dropLast = true := (isdir_true_iff fs _ hdne).mpr hdir
    refine ⟨insertS fs fp (.file d), ?_, ?_, ?_⟩
    · unfold fsSave
      simp only [hprep]
      rw [if_neg (by rw [hisdir]; simp)]
    · rw [lookupS_insertS_self]
    · rw [isdir_true_iff _ _ hdne, lookupS_insertS_ne fs fp _ _ hne2]
      exact hdir

/-- Failure of `save` when some nonempty prefix of the dirname is occupied by
a regular file, on a well-formed filesystem: the parent cannot be made a
directory and an OSError (in Python 3: an IOError) is raised. -/
theorem fsSave_err_parent (fs : FS) (fp : FPath) (d : Bytes) (hwf : wfFS fs = true)
    (hq : ∃ q b, q <+: fp.dropLast ∧ q ≠ [] ∧ lookupS fs q = some (.file b)) :
    ∃ e, fsSave fs fp d = .error e := by
  obtain ⟨q, b, hqp, hqne, hqf⟩ := hq
  have hdne : fp.dropLast ≠ [] := by
    intro he
    rw [he] at hqp
    exact hqne (List.prefix_nil.mp hqp)
  cases hpe : pathExists fs fp.dropLast with
  | true =>
    obtain ⟨nd, hnd⟩ := pathExists_true_lookup fs _ hpe
    have hfile : ∃ b2, lookupS fs fp.dropLast = some (.file b2) := by
      cases nd with
      | file b2 => exact ⟨b2, hnd⟩
      | dir =>
        by_cases hqh : q = fp.dropLast
        · rw [hqh, hnd] at hqf
          exact FNode.noConfusion (Option.some.inj hqf)
        · have hw := wfFS_prefix fs hwf fp.dropLast .dir hnd q hqp hqne hqh
          rw [hw] at hqf
          exact FNode.noConfusion (Option.some.inj hqf)
    obtain ⟨b2, hfile⟩ := hfile
    have hprep : savePrep fs fp.dropLast = .ok fs := by
      unfold savePrep
      rw [if_neg (by rw [hpe]; simp)]
    have hisdir : isdir fs fp.dropLast = false := by
      unfold isdir
      rw [isEmpty_false_of_ne _ hdne]
      simp [hfile]
    refine ⟨.ioErrorNotDir fp.dropLast, ?_⟩
    unfold fsSave
    simp only [hprep]
    rw [if_pos hisdir]
  | false =>
    obtain ⟨e, he⟩ := makedirs_err_aux fp.dropLast.length fp.dropLast fs le_rfl hwf
      ⟨q, b, hqp, hqne, hqf⟩ hpe
    cases e with
    | eexist =>
      have hprep : savePrep fs fp.dropLast = .ok fs := by
        unfold savePrep
        rw [if_pos hpe]
        simp only [he]
      have habs := pathExists_false_lookup fs _ hdne hpe
      have hisdir : isdir fs fp.dropLast = false := by
        unfold isdir
        rw [isEmpty_false_of_ne _ hdne]
        simp [habs]
      refine ⟨.ioErrorNotDir fp.dropLast, ?_⟩
      unfold fsSave
      simp only [hprep]
      rw [if_pos hisdir]
    | enoent =>
      refine ⟨.enoent, ?_⟩
      have hprep : savePrep fs fp.dropLast = .error .enoent := by
        unfold savePrep
        rw [if_pos hpe]
        simp only [he]
      unfold fsSave
      simp only [hprep]
    | enotdir =>
      refine ⟨.enotdir, ?_⟩
      have hprep : savePrep fs fp.dropLast = .error .enotdir := by
        unfold savePrep
        rw [if_pos hpe]
        simp only [he]
      unfold fsSave
      simp only [hprep]
    | eisdir =>
      refine ⟨.eisdir, ?_⟩
      have hprep : savePrep fs fp.dropLast = .error .eisdir := by
        unfold savePrep
        rw [if_pos hpe]
        simp only [he]
      unfold fsSave
      simp only [hprep]
    | ioErrorNotDir pp =>
      refine ⟨.ioErrorNotDir pp, ?_⟩
      have hprep : savePrep fs fp.dropLast = .error (.ioErrorNotDir pp) := by
        unfold savePrep
        rw [if_pos hpe]
        simp only [he]
      unfold fsSave
      simp only [hprep]

/-- Failure of `save` on a bare filename: `os.path.dirname` returns the empty
string, `os.path.exists` of it is False, and `os.makedirs` of the empty string
raises FileNotFoundError, which the backend re-raises. -/
theorem fsSave_err_bare (fs : FS) (fp : FPath) (d : Bytes) (hd : fp.dropLast = []) :
    ∃ e, fsSave fs fp d = .error e := by
  have hmk : makedirs fs ([] : FPath) = .error .enoent := by
    unfold makedirs
    rw [dif_neg (by simp)]
    rfl
  have hprep : savePrep fs fp.dropLast = .error .enoent := by
    unfold savePrep
    rw [hd, if_pos (show pathExists fs [] = false from rfl)]
    simp only [hmk]
  refine ⟨.enoent, ?_⟩
  unfold fsSave
  simp only [hprep]

/-! Claim C7. -/

/-- Claim C7, counterexample: with directory a and directory a/b present,
saving to a/b fails (open of a directory raises IsADirectoryError) even though
the destination parent a already is a directory — so failure is not
"exactly when the destination parent cannot be made a directory". -/
theorem C7_counterexample :
    fsSave [(["a"], FNode.dir), (["a", "b"], FNode.dir)] ["a", "b"] [7]
      = .error .eisdir ∧
    isdir [(["a"], FNode.dir), (["a", "b"], FNode.dir)] ["a"] = true :=
  ⟨rfl, rfl⟩

/-- Claim C7, amended: `save` creates the missing intermediate directories and
overwrites an existing file, and it fails with an OSError (IOError in Python 3)
whenever a nonempty prefix of the dirname is occupied by a regular file, that
is, whenever the parent cannot be made a directory; but it also fails when the
destination itself is an existing directory and when the path is a bare
filename with empty dirname, so failure is not limited to unmakeable
parents. -/
theorem C7_amended :
    (∀ (fs : FS) (fp : FPath) (d : Bytes),
      prefixesClear fs fp.dropLast = true → fp.dropLast ≠ [] →
      lookupS fs fp ≠ some FNode.dir →
      ∃ fs2, fsSave fs fp d = .ok fs2 ∧ lookupS fs2 fp = some (.file d) ∧
        isdir fs2 fp.dropLast = true) ∧
    (∀ (fs : FS) (fp : FPath) (d : Bytes), wfFS fs = true →
      (∃ q b, q <+: fp.dropLast ∧ q ≠ [] ∧ lookupS fs q = some (.file b)) →
      ∃ e, fsSave fs fp d = .error e) ∧
    (∀ (fs : FS) (fp : FPath) (d : Bytes), fp.dropLast = [] →
      ∃ e, fsSave fs fp d = .error e) :=
  ⟨fsSave_ok, fsSave_err_parent, fsSave_err_bare⟩

/-- Claim C7, witness: creation on an empty tree, failure under a file-occupied
segment, and failure on a bare filename. -/
theorem C7_amended_witness :
    (∃ fs2, fsSave [] ["a", "b"] [5] = .ok fs2 ∧
      lookupS fs2 ["a", "b"] = some (.file [5]) ∧ isdir fs2 ["a"] = true) ∧
    (∃ e, fsSave [(["a"], FNode.file [1])] ["a", "b", "c"] [2] = .error e) ∧
    (∃ e, fsSave [] ["f"] [3] = .error e) :=
  ⟨C7_amended.1 [] ["a", "b"] [5] (by decide) (by decide) (by decide),
   C7_amended.2.1 [(["a"], FNode.file [1])] ["a", "b", "c"] [2] (by decide)
     ⟨["a"], [1], by decide, by decide, by decide⟩,
   C7_amended.2.2 [] ["f"] [3] rfl⟩

/-- Claim C3, witness for the amended theorem at concrete stores. -/
theorem C3_amended_witness :
    (((applyProgress [("j", taskF)] "j" 7).find? "j").map Task.status
      = (Store.find? [("j", taskF)] "j").map Task.status) ∧
    ((markTaskError [("j", taskF)] "j").find? "j").map Task.status = some .error ∧
    ((finishTask [("j", taskP 10)] "j" "o.mp4").find? "j").map Task.status
      = some .finished :=
  ⟨C3_amended.1 [("j", taskF)] "j" "j" 7,
   C3_amended.2.1 [("j", taskF)] "j" taskF (by decide),
   C3_amended.2.2 [("j", taskP 10)] "j" "o.mp4" (taskP 10) (by decide)⟩

end Sora
